import Mathlib

/-!
Shallow embedding of `src/update_shopify.py`, a script that reconciles
stock quantities, a managed set of classification tags and collection
memberships for products of up to two Shopify stores, driven by a Google
spreadsheet quantity feed and a persisted tag cache.

Strings are modelled with Lean `String` (a list of characters); Python's
ASCII-relevant behaviour of `str.lower`, `str.strip`, `str.split(",")`
and `",".join` is implemented structurally on the character lists so
that every definition is executable and kernel-reducible.  Python floats
produced by `float(...)` on the decimal literals the script handles are
modelled as rationals.
-/

namespace UpdateShopify

/-! ### Character helpers (ASCII model of the Python string methods) -/

/-- Whitespace as recognised by Python `str.strip` / regex `\s`, restricted
to the characters that can occur in the script's inputs (ASCII whitespace
plus no-break space). -/
def isPySpace (c : Char) : Bool :=
  c.toNat = 32 || c.toNat = 9 || c.toNat = 10 || c.toNat = 13 ||
  c.toNat = 11 || c.toNat = 12 || c.toNat = 160

/-- Decimal digit, regex `\d` (ASCII). -/
def isDigitChar (c : Char) : Bool :=
  48 ≤ c.toNat && c.toNat ≤ 57

/-- Word character, regex `\w` (ASCII), used for the `\b` boundary. -/
def isWordChar (c : Char) : Bool :=
  isDigitChar c || (97 ≤ c.toNat && c.toNat ≤ 122) ||
  (65 ≤ c.toNat && c.toNat ≤ 90) || c.toNat = 95

/-- ASCII lower-casing of one character, modelling Python `str.lower` on
the script's inputs. -/
def lowerChar (c : Char) : Char :=
  if 65 ≤ c.toNat ∧ c.toNat ≤ 90 then
    Char.ofNat (c.toNat + 32)
  else c

/-- Python `s.lower()`. -/
def pyLower (s : String) : String :=
  ⟨s.data.map lowerChar⟩

/-- Strip leading and trailing whitespace from a character list
(Python `str.strip`). -/
def stripChars (l : List Char) : List Char :=
  ((l.dropWhile isPySpace).reverse.dropWhile isPySpace).reverse

/-- Python `s.strip()`. -/
def pyStrip (s : String) : String :=
  ⟨stripChars s.data⟩

/-- Split a character list at commas; every comma is a separator, so the
result has one (possibly empty) piece more than the number of commas.
This is Python `s.split(",")`. -/
def splitCommaAux : List Char → List Char → List (List Char)
  | [], acc => [acc.reverse]
  | c :: cs, acc =>
      if c = ',' then acc.reverse :: splitCommaAux cs []
      else splitCommaAux cs (c :: acc)

/-- Python `s.split(",")`. -/
def splitComma (s : String) : List String :=
  (splitCommaAux s.data []).map fun cs => ⟨cs⟩

/-- Python `",".join(ts)` on character lists. -/
def joinCommaChars : List (List Char) → List Char
  | [] => []
  | [t] => t
  | t :: ts => t ++ ',' :: joinCommaChars ts

/-- Python `",".join(ts)`. -/
def joinComma (ts : List String) : String :=
  ⟨joinCommaChars (ts.map String.data)⟩

/-- The tag-string parsing used throughout the script:
`[t.strip() for t in st.split(",") if t.strip()]`. -/
def splitTags (s : String) : List String :=
  ((splitComma s).map pyStrip).filter fun t => t ≠ ""

/-! ### A structural, kernel-reducible order on strings (Python `sorted`) -/

/-- Code-point lexicographic comparison of character lists, the order
Python uses to compare strings. -/
def charsLe : List Char → List Char → Bool
  | [], _ => true
  | _ :: _, [] => false
  | a :: as, b :: bs =>
      if a.toNat = b.toNat then charsLe as bs else decide (a.toNat < b.toNat)

/-- Python string comparison `s <= t`. -/
def strLe (s t : String) : Prop :=
  charsLe s.data t.data = true

instance : DecidableRel strLe := fun _ _ => inferInstanceAs (Decidable (_ = true))

/-- Python `sorted(list(set(l)))`: the sorted list of the distinct
elements of `l`. -/
def pySortedSet (l : List String) : List String :=
  List.insertionSort strLe l.dedup

/-! ### Constants of the script -/

/-- Managed tags, `RELEVANT_TAGS` (only `bestseller` is a valid variant,
not `best seller`). -/
def RELEVANT_TAGS : Finset String :=
  {"male", "female", "unisex", "bestseller"}

/-- Tag-to-series table, `SERIES_MAPPING`. -/
def SERIES_MAPPING : List (String × String) :=
  [("male", "men"), ("female", "women"), ("unisex", "unisex"), ("bestseller", "bestsellers")]

/-! ### Pure helpers of the script -/

/-- Check whether `pat` occurs at the head of `l`. -/
def headMatches : List Char → List Char → Bool
  | [], _ => true
  | _ :: _, [] => false
  | p :: ps, c :: cs => p == c && headMatches ps cs

/-- Substring containment, Python `pat in s`. -/
def containsSub (pat l : List Char) : Bool :=
  (List.range (l.length + 1)).any fun i => headMatches pat (l.drop i)

/-- The title exclusion rule `skip_product_title`: skip any product whose
lower-cased title contains `sample` or `bundle`. -/
def skip_product_title (title : String) : Bool :=
  containsSub "sample".data (pyLower title).data ||
  containsSub "bundle".data (pyLower title).data

/-- Numeric value of a digit run. -/
def digitsToNat (cs : List Char) : ℕ :=
  cs.foldl (fun a c => 10 * a + (c.toNat - 48)) 0

/-- A Python float arising from `float(...)` on a decimal literal,
modelled exactly as the decimal it denotes, in a canonical form whose
structural equality coincides with numeric equality: a sign, the integer
part, and the fraction digits with trailing zeros removed (`-0` is
normalised to `0`).  These values are only ever used as keys joining the
feed to the catalog, i.e. compared for equality. -/
structure DecNum where
  neg : Bool
  ip : ℕ
  fr : List ℕ
deriving DecidableEq

/-- Build the canonical `DecNum` denoted by sign, integer-part digits
and fraction digits. -/
def DecNum.make (neg : Bool) (ipDigits frDigits : List Char) : DecNum :=
  let ip := digitsToNat ipDigits
  let fr := ((frDigits.map fun c => c.toNat - 48).reverse.dropWhile fun d => d = 0).reverse
  { neg := neg && !(ip = 0 && fr.isEmpty), ip := ip, fr := fr }

/-- Digit-list value read as a fraction in `[0,1)`. -/
def fracVal (ds : List ℕ) : ℚ :=
  (ds.foldl (fun a d => 10 * a + d) 0 : ℚ) / (10 : ℚ) ^ ds.length

/-- The rational a `DecNum` denotes. -/
def DecNum.toQ (d : DecNum) : ℚ :=
  (if d.neg then -1 else 1) * ((d.ip : ℚ) + fracVal d.fr)

/-- The negative lookahead `(?!\s*\d)` of the title regex: this returns
`true` exactly when `\s*\d` matches at `rest`, i.e. when the lookahead
rejects the candidate. -/
def lookaheadBlocks (rest : List Char) : Bool :=
  match rest.dropWhile isPySpace with
  | c :: _ => isDigitChar c
  | [] => false

/-- Attempt of the regex `\b(\d{1,3}(\.\d+)?)(?!\s*\d)` at one position
(the caller has already checked the word boundary).  `\d{1,3}` is greedy;
because any shorter match of the digit group or the fraction group is
immediately followed by a digit (which makes the lookahead fail), the
only viable candidates are the maximal runs, with the fraction dropped
as a fallback when its lookahead fails. -/
def tryMatchAt (rest : List Char) : Option DecNum :=
  let ds := rest.takeWhile isDigitChar
  if ds.length = 0 || 3 < ds.length then none
  else
    match rest.drop ds.length with
    | '.' :: a2 =>
        let fs := a2.takeWhile isDigitChar
        if fs.length ≠ 0 && !lookaheadBlocks (a2.drop fs.length) then
          some (DecNum.make false ds fs)
        else if !lookaheadBlocks ('.' :: a2) then some (DecNum.make false ds [])
        else none
    | after =>
        if !lookaheadBlocks after then some (DecNum.make false ds []) else none

/-- Left-to-right scan of `re.search`, carrying the previous character for
the `\b` word-boundary test. -/
def reSearchAux : Option Char → List Char → Option DecNum
  | _, [] => none
  | prev, c :: rest =>
      let boundaryOk := match prev with
        | none => true
        | some pc => !isWordChar pc
      if boundaryOk then
        match tryMatchAt (c :: rest) with
        | some v => some v
        | none => reSearchAux (some c) rest
      else reSearchAux (some c) rest

/-- The catalog-number extraction `extract_perfume_number_from_product_title`:
`re.search(r"\b(\d{1,3}(\.\d+)?)(?!\s*\d)", title.lower())`, the matched
group converted by `float` (which never fails on this group, so the
`except ValueError` branch is dead). -/
def extract_perfume_number_from_product_title (title : String) : Option DecNum :=
  reSearchAux none (pyLower title).data

/-- Python `value_str.replace('−','-')` guarded by the emptiness check of
`normalize_minus_sign` (U+2212 is the only minus variant replaced). -/
def normalize_minus_sign (s : String) : String :=
  if s = "" then s
  else ⟨s.data.map fun c => if c = Char.ofNat 8722 then '-' else c⟩

/-- The series derivation `build_series_list`: collect
`SERIES_MAPPING[t.lower()]` over the tags and return the sorted set. -/
def build_series_list (tagList : List String) : List String :=
  pySortedSet (tagList.filterMap fun t => SERIES_MAPPING.lookup (pyLower t))

/-! ### Feed parsing (the `parfnum_map` construction of both store passes) -/

/-- Python `int(s)` restricted to the decimal integer literals the feed
can contain: optional surrounding whitespace, an optional sign and a
nonempty digit run. -/
def pyIntZ (s : String) : Option ℤ :=
  match stripChars s.data with
  | '-' :: cs =>
      if cs.length ≠ 0 && cs.all isDigitChar then some (-(digitsToNat cs : ℤ)) else none
  | '+' :: cs =>
      if cs.length ≠ 0 && cs.all isDigitChar then some (digitsToNat cs : ℤ) else none
  | cs =>
      if cs.length ≠ 0 && cs.all isDigitChar then some (digitsToNat cs : ℤ) else none

/-- Unsigned decimal literal: `d+`, `d+.d*` or `.d+`, returned as its
integer-part and fraction digit runs. -/
def pyUnsignedDec (cs : List Char) : Option (List Char × List Char) :=
  let ip := cs.takeWhile isDigitChar
  match cs.drop ip.length with
  | [] => if ip.length = 0 then none else some (ip, [])
  | '.' :: fs =>
      if fs.all isDigitChar && (ip.length ≠ 0 || fs.length ≠ 0) then
        some (ip, fs)
      else none
  | _ => none

/-- Python `float(s)` restricted to the plain decimal literals the feed
can contain (no exponents, underscores or `inf`/`nan`). -/
def pyFloatDec (s : String) : Option DecNum :=
  match stripChars s.data with
  | '-' :: cs => (pyUnsignedDec cs).map fun p => DecNum.make true p.1 p.2
  | '+' :: cs => (pyUnsignedDec cs).map fun p => DecNum.make false p.1 p.2
  | cs => (pyUnsignedDec cs).map fun p => DecNum.make false p.1 p.2

/-- One feed row, the pair of the (already stringified) `nummer:` and
`Antal:` cells. -/
def parseFeedRow (r : String × String) : Option (DecNum × ℕ) :=
  let rawN := normalize_minus_sign r.1
  let rawA := normalize_minus_sign r.2
  if rawN = "" || rawA = "" then none
  else
    match pyFloatDec rawN, pyIntZ rawA with
    | some nf, some ai => some (nf, if ai < 0 then 0 else ai.toNat)
    | some _, none => none
    | none, _ => none

/-- The `parfnum_map` built by `process_store1` and `process_store2`:
rows are folded in order into a map, so a later row overwrites an
earlier one with the same number; rows that fail to parse are skipped. -/
def buildParfnumMap (rows : List (String × String)) : DecNum → Option ℕ :=
  rows.foldl
    (fun m r =>
      match parseFeedRow r with
      | some (nf, ai) => fun k => if k = nf then some ai else m k
      | none => m)
    (fun _ => none)

/-! ### The reconciliation planner (per-product core of `process_store1`
and `process_store2`) -/

/-- Canonical tag normalisation applied when merging tag lists:
lower-case, and standardise `best seller` to `bestseller`. -/
def normalizeTag (t : String) : String :=
  let lx := pyLower t
  if lx = "best seller" then "bestseller" else lx

/-- The merged tag set `combined_set` of one product: DB tags (or the
fallback) together with the live Shopify tags, normalised. -/
def combinedTagSet (taglist shopifyList : List String) : Finset String :=
  ((taglist ++ shopifyList).map normalizeTag).toFinset

/-- The new tag list written back to the product: with quantity 0 every
member of `RELEVANT_TAGS` is dropped from the merged set, otherwise the
merged set is kept; in both branches the result is
`sorted(list(set(...)))`. -/
def newTags (taglist shopifyList : List String) (qty : ℕ) : List String :=
  let combined := (taglist ++ shopifyList).map normalizeTag
  if qty = 0 then
    pySortedSet (combined.filter fun t => t ∉ RELEVANT_TAGS)
  else
    pySortedSet combined

/-- Written from the spec's words (§4.3) for the refinement comparison
in C3: the target tag set as the spec prescribes it — `currentTags ∪
cachedManaged` when the quantity is positive, `(currentTags ∪
cachedManaged) − RELEVANT_TAGS` when it is 0 — over canonically
normalised tag sets. -/
def specTargetTags (current cached : Finset String) (qty : ℕ) : Finset String :=
  if qty = 0 then (current ∪ cached) \ RELEVANT_TAGS else current ∪ cached

/-- One Shopify product as the planner sees it: identifier, title, the
raw comma-separated tag string, and the `inventory_item_id` of each
variant (`none` when the variant has no usable id). -/
structure Product where
  id : String
  title : String
  tags : String
  variants : List (Option ℤ)
deriving DecidableEq

/-- The mutations one `process_store1` iteration emits for one product
(the API calls it performs, in order): the quantity written to every
variant inventory level, the full tag list written unconditionally, and
the series list passed to the collection update. -/
structure TagPlan where
  qty : ℕ
  invWrites : List ℤ
  tagWrite : List String
  wantedSeries : List String
deriving DecidableEq

/-- The tag/series computation shared by both branches of
`process_store1` for one product, given the resolved quantity. -/
def mkPlan1 (dbTags : List (String × List String)) (p : Product) (qty : ℕ) : TagPlan :=
  let taglist := (dbTags.lookup p.id).getD (splitTags p.tags)
  let shopifyList := splitTags p.tags
  let newT := newTags taglist shopifyList qty
  { qty := qty
    invWrites := p.variants.filterMap id
    tagWrite := newT
    wantedSeries := if qty = 0 then [] else build_series_list newT }

/-- One iteration of the `process_store1` product loop: extract the
catalog number from the title, look it up in the feed map, and compute
the emitted mutations; `none` means the product is skipped without any
mutation. -/
def processProduct1 (dbTags : List (String × List String)) (pm : DecNum → Option ℕ)
    (p : Product) : Option TagPlan :=
  (extract_perfume_number_from_product_title p.title).bind fun nf =>
    (pm nf).map fun qty => mkPlan1 dbTags p qty

/-- The tag/series computation of `process_store2` for one matched pair:
the cache is keyed by the store-1 product id and falls back to the
store-1 live tags, while the live list merged in comes from the store-2
product. -/
def mkPlan2 (dbTags : List (String × List String)) (p1 : Product) (s2 : Product)
    (qty : ℕ) : TagPlan :=
  let taglist := (dbTags.lookup p1.id).getD (splitTags p1.tags)
  let s2List := splitTags s2.tags
  let newT := newTags taglist s2List qty
  { qty := qty
    invWrites := s2.variants.filterMap id
    tagWrite := newT
    wantedSeries := if qty = 0 then [] else build_series_list newT }

/-- One iteration of the `process_store2` product loop: the store-1
product supplies title (hence catalog number) and cache key; the store-2
product is found through the lower-cased title index; `none` means the
product is skipped for store 2. -/
def processProduct2 (dbTags : List (String × List String)) (pm : DecNum → Option ℕ)
    (p1 : Product) (titleMap : List (String × Product)) : Option (String × TagPlan) :=
  (extract_perfume_number_from_product_title p1.title).bind fun nf =>
    (pm nf).bind fun qty =>
      (titleMap.lookup (pyLower p1.title)).map fun s2 =>
        (s2.id, mkPlan2 dbTags p1 s2 qty)

/-! ### Collection reconciliation (`update_collections_for_product`) -/

/-- The collection ids wanted for a product: each series name mapped
through the configured `col_map`; names without an entry are dropped. -/
def wantedCollectionIds (series : List String) (colMap : List (String × ℤ)) : Finset ℤ :=
  (series.filterMap fun s => colMap.lookup s).toFinset

/-- The membership mutations emitted by `update_collections_for_product`:
`(add_ids, remove_ids) = (wanted − existing, existing − wanted)`. -/
def collectionMutations (series : List String) (colMap : List (String × ℤ))
    (existing : Finset ℤ) : Finset ℤ × Finset ℤ :=
  let wanted := wantedCollectionIds series colMap
  (wanted \ existing, existing \ wanted)

/-- The collection memberships after the emitted mutations are applied
(removals performed, additions performed). -/
def applyCollectionMutations (existing : Finset ℤ) (m : Finset ℤ × Finset ℤ) : Finset ℤ :=
  (existing \ m.2) ∪ m.1

/-! ### The mutation gateway (`safe_api_call`, `update_inventory_level`) -/

/-- Outcome of one attempt of a remote call: a transport-level exception
(`requests.exceptions.RequestException`) or an application response. -/
inductive CallAttempt (α : Type) where
  | transportFailure
  | response (r : α)
deriving DecidableEq

/-- The wrapper `safe_api_call`, driven by the sequence of outcomes the
network would produce for the successive attempts: on a response it
sleeps 1 second and returns it; on a transport failure it sleeps
5 seconds and retries the same call.  The result pairs the list of
sleeps performed (in seconds) with the response; `none` means every
provided attempt failed and the wrapper is still retrying — the failure
is never returned to the caller. -/
def safe_api_call {α : Type} : List (CallAttempt α) → Option (List ℕ × α)
  | [] => none
  | .transportFailure :: rest =>
      (safe_api_call rest).map fun p => (5 :: p.1, p.2)
  | .response r :: _ => some ([1], r)

/-- What `update_inventory_level` does with the response of its one
`safe_api_call`: status 200 reports success, anything else logs the
error and abandons the mutation (no retry, no exception). -/
inductive MutationResult where
  | applied (qty : ℤ)
  | abandoned (status : ℕ)
deriving DecidableEq

/-- Application-level handling of `update_inventory_level`: the mutation
counts as applied exactly on status 200; any other status is logged and
abandoned. -/
def update_inventory_level (status : ℕ) (qty : ℤ) : MutationResult :=
  if status = 200 then .applied qty else .abandoned status

/-! ### Startup configuration checks (`main`) -/

/-- The environment values `main` reads (absent variable = `none`). -/
structure Env where
  databaseUrl : Option String
  store1Domain : Option String
  store1Token : Option String
  store2Domain : Option String
  store2Token : Option String
  googleCredentialsJson : Option String
deriving DecidableEq

/-- The explicit configuration validation `main` performs before any
fetch: `DATABASE_URL` and `GOOGLE_CREDENTIALS_JSON` raise when falsy
(missing or empty); no other credential is checked (store domains,
tokens and location ids are read without validation and the collection
ids default to `"0"`).  An `error` result is the fast failure caught by
the top-level handler; `ok` means the run proceeds to the feed fetch. -/
def main_startup (env : Env) : Except String Unit :=
  if (env.databaseUrl.getD "") = "" then .error "Saknas DATABASE_URL"
  else if (env.googleCredentialsJson.getD "") = "" then .error "Saknas GOOGLE_CREDENTIALS_JSON"
  else .ok ()

/-! ## Lemmas -/

/-! ### The string order is a linear order -/

theorem charsLe_total : ∀ as bs : List Char, charsLe as bs = true ∨ charsLe bs as = true
  | [], _ => Or.inl rfl
  | _ :: _, [] => Or.inr rfl
  | a :: as, b :: bs => by
      by_cases h : a.toNat = b.toNat
      · rcases charsLe_total as bs with h1 | h1
        · exact Or.inl (by simp [charsLe, h, h1])
        · exact Or.inr (by simp [charsLe, h.symm, h1])
      · have hne : ¬b.toNat = a.toNat := fun hh => h hh.symm
        rcases Nat.lt_or_ge a.toNat b.toNat with hlt | hge
        · exact Or.inl (by simp [charsLe, h, hlt])
        · have hlt : b.toNat < a.toNat := by omega
          exact Or.inr (by simp [charsLe, hne, hlt])

theorem charsLe_antisymm : ∀ as bs : List Char,
    charsLe as bs = true → charsLe bs as = true → as = bs
  | [], [], _, _ => rfl
  | [], _ :: _, _, h2 => by simp [charsLe] at h2
  | _ :: _, [], h1, _ => by simp [charsLe] at h1
  | a :: as, b :: bs, h1, h2 => by
      by_cases h : a.toNat = b.toNat
      · have ha : a = b := Char.eq_of_val_eq (UInt32.ext h)
        simp only [charsLe, if_pos h, if_pos h.symm] at h1 h2
        rw [ha, charsLe_antisymm as bs h1 h2]
      · have hne : ¬b.toNat = a.toNat := fun hh => h hh.symm
        simp only [charsLe, if_neg h, if_neg hne, decide_eq_true_eq] at h1 h2
        omega

theorem charsLe_trans : ∀ as bs cs : List Char,
    charsLe as bs = true → charsLe bs cs = true → charsLe as cs = true
  | [], _, _, _, _ => rfl
  | _ :: _, [], _, h1, _ => by simp [charsLe] at h1
  | _ :: _, _ :: _, [], _, h2 => by simp [charsLe] at h2
  | a :: as, b :: bs, c :: cs, h1, h2 => by
      by_cases hab : a.toNat = b.toNat <;> by_cases hbc : b.toNat = c.toNat
      · simp only [charsLe, if_pos hab, if_pos hbc, if_pos (hab.trans hbc)] at h1 h2 ⊢
        exact charsLe_trans as bs cs h1 h2
      · simp only [charsLe, if_pos hab, if_neg hbc, decide_eq_true_eq] at h1 h2
        have : a.toNat ≠ c.toNat := by omega
        simp only [charsLe, if_neg this, decide_eq_true_eq]
        omega
      · simp only [charsLe, if_neg hab, if_pos hbc, decide_eq_true_eq] at h1 h2
        have : a.toNat ≠ c.toNat := by omega
        simp only [charsLe, if_neg this, decide_eq_true_eq]
        omega
      · simp only [charsLe, if_neg hab, if_neg hbc, decide_eq_true_eq] at h1 h2
        have : a.toNat ≠ c.toNat := by omega
        simp only [charsLe, if_neg this, decide_eq_true_eq]
        omega

instance : IsTotal String strLe :=
  ⟨fun s t => charsLe_total s.data t.data⟩

instance : IsAntisymm String strLe :=
  ⟨fun s t h1 h2 => by
    cases s; cases t
    exact congrArg String.mk (charsLe_antisymm _ _ h1 h2)⟩

instance : IsTrans String strLe :=
  ⟨fun s t u h1 h2 => charsLe_trans s.data t.data u.data h1 h2⟩

theorem mem_pySortedSet {t : String} {l : List String} :
    t ∈ pySortedSet l ↔ t ∈ l := by
  unfold pySortedSet
  rw [List.mem_insertionSort, List.mem_dedup]

theorem pySortedSet_sorted (l : List String) : List.Sorted strLe (pySortedSet l) :=
  List.sorted_insertionSort strLe l.dedup

theorem pySortedSet_nodup (l : List String) : (pySortedSet l).Nodup :=
  ((List.perm_insertionSort strLe l.dedup).nodup_iff).mpr (List.nodup_dedup l)

theorem pySortedSet_toFinset (l : List String) :
    (pySortedSet l).toFinset = l.toFinset := by
  ext t
  simp only [List.mem_toFinset]
  exact mem_pySortedSet

theorem pySortedSet_eq_of_toFinset_eq {l₁ l₂ : List String}
    (h : l₁.toFinset = l₂.toFinset) : pySortedSet l₁ = pySortedSet l₂ := by
  refine List.eq_of_perm_of_sorted ?_ (pySortedSet_sorted l₁) (pySortedSet_sorted l₂)
  refine (List.perm_ext_iff_of_nodup (pySortedSet_nodup l₁) (pySortedSet_nodup l₂)).mpr fun a => ?_
  rw [mem_pySortedSet, mem_pySortedSet, ← List.mem_toFinset, ← List.mem_toFinset (l := l₂), h]

/-! ### Character-level facts about lower-casing -/

theorem toNat_lowerChar_of_upper {c : Char} (h1 : 65 ≤ c.toNat) (h2 : c.toNat ≤ 90) :
    (lowerChar c).toNat = c.toNat + 32 := by
  have hval : (c.toNat + 32) < 55296 := by omega
  simp only [lowerChar, if_pos (And.intro h1 h2)]
  unfold Char.ofNat
  rw [dif_pos (Or.inl hval)]
  rfl

theorem lowerChar_of_not_upper {c : Char} (h : ¬(65 ≤ c.toNat ∧ c.toNat ≤ 90)) :
    lowerChar c = c := by
  simp only [lowerChar, if_neg h]

theorem lowerChar_lowerChar (c : Char) : lowerChar (lowerChar c) = lowerChar c := by
  by_cases h : 65 ≤ c.toNat ∧ c.toNat ≤ 90
  · have := toNat_lowerChar_of_upper h.1 h.2
    exact lowerChar_of_not_upper (by omega)
  · rw [lowerChar_of_not_upper h, lowerChar_of_not_upper h]

theorem isPySpace_iff (c : Char) : isPySpace c = true ↔
    (c.toNat = 32 ∨ c.toNat = 9 ∨ c.toNat = 10 ∨ c.toNat = 13 ∨
     c.toNat = 11 ∨ c.toNat = 12 ∨ c.toNat = 160) := by
  simp [isPySpace, or_assoc]

theorem isPySpace_lowerChar (c : Char) : isPySpace (lowerChar c) = isPySpace c := by
  by_cases h : 65 ≤ c.toNat ∧ c.toNat ≤ 90
  · have ht := toNat_lowerChar_of_upper h.1 h.2
    rw [Bool.eq_iff_iff, isPySpace_iff, isPySpace_iff, ht]
    omega
  · rw [lowerChar_of_not_upper h]

theorem lowerChar_ne_comma {c : Char} (h : c ≠ ',') : lowerChar c ≠ ',' := by
  by_cases hu : 65 ≤ c.toNat ∧ c.toNat ≤ 90
  · have ht := toNat_lowerChar_of_upper hu.1 hu.2
    intro hc
    have : (lowerChar c).toNat = 44 := by rw [hc]; rfl
    omega
  · rw [lowerChar_of_not_upper hu]; exact h

theorem pyLower_pyLower (s : String) : pyLower (pyLower s) = pyLower s := by
  cases s with
  | mk data =>
    apply congrArg String.mk
    simp only [pyLower, List.map_map]
    exact List.map_congr_left fun c _ => lowerChar_lowerChar c

/-! ### Facts about stripping -/

theorem dropWhile_dropWhile (p : Char → Bool) :
    ∀ l : List Char, (l.dropWhile p).dropWhile p = l.dropWhile p
  | [] => rfl
  | c :: cs => by
      by_cases h : p c
      · simp only [List.dropWhile_cons, h, if_true]
        exact dropWhile_dropWhile p cs
      · simp [List.dropWhile_cons, h]

theorem length_dropWhile_le (p : Char → Bool) :
    ∀ l : List Char, (l.dropWhile p).length ≤ l.length
  | [] => Nat.le_refl _
  | c :: cs => by
      by_cases h : p c
      · simp only [List.dropWhile_cons, h, if_true]
        exact Nat.le_trans (length_dropWhile_le p cs) (Nat.le_succ _)
      · simp [List.dropWhile_cons, h]

theorem dropWhile_eq_self_of_append {p : Char → Bool} {x y : List Char}
    (h : (x ++ y).dropWhile p = x ++ y) : x.dropWhile p = x := by
  cases x with
  | nil => rfl
  | cons c cs =>
      by_cases hc : p c
      · exfalso
        rw [List.cons_append, List.dropWhile_cons, if_pos hc] at h
        have := congrArg List.length h
        have hle := length_dropWhile_le p (cs ++ y)
        simp only [List.length_cons] at this
        omega
      · simp [List.dropWhile_cons, hc]

theorem stripChars_dropWhile (l : List Char) :
    (stripChars l).dropWhile isPySpace = stripChars l := by
  have hAm : (l.dropWhile isPySpace).dropWhile isPySpace = l.dropWhile isPySpace :=
    dropWhile_dropWhile isPySpace l
  obtain ⟨t, ht⟩ : ((l.dropWhile isPySpace).reverse.dropWhile isPySpace) <:+
      (l.dropWhile isPySpace).reverse := List.dropWhile_suffix isPySpace
  have hdecomp : l.dropWhile isPySpace = stripChars l ++ t.reverse := by
    have hr := congrArg List.reverse ht
    simpa [stripChars, List.reverse_append] using hr.symm
  exact dropWhile_eq_self_of_append (hdecomp ▸ hAm)

theorem stripChars_reverse_dropWhile (l : List Char) :
    (stripChars l).reverse.dropWhile isPySpace = (stripChars l).reverse := by
  unfold stripChars
  rw [List.reverse_reverse]
  exact dropWhile_dropWhile _ _

theorem stripChars_of_clean {l : List Char} (h1 : l.dropWhile isPySpace = l)
    (h2 : l.reverse.dropWhile isPySpace = l.reverse) : stripChars l = l := by
  unfold stripChars
  rw [h1, h2, List.reverse_reverse]

theorem stripChars_stripChars (l : List Char) :
    stripChars (stripChars l) = stripChars l :=
  stripChars_of_clean (stripChars_dropWhile l) (stripChars_reverse_dropWhile l)

theorem dropWhile_map {f : Char → Char} {p : Char → Bool} (h : ∀ c, p (f c) = p c) :
    ∀ l : List Char, (l.map f).dropWhile p = (l.dropWhile p).map f
  | [] => rfl
  | c :: cs => by
      by_cases hc : p c
      · simp only [List.map_cons, List.dropWhile_cons, h c, hc, if_true]
        exact dropWhile_map h cs
      · simp [List.dropWhile_cons, h c, hc]

theorem stripChars_map {f : Char → Char} (h : ∀ c, isPySpace (f c) = isPySpace c)
    (l : List Char) : stripChars (l.map f) = (stripChars l).map f := by
  unfold stripChars
  rw [dropWhile_map h, ← List.map_reverse, dropWhile_map h, ← List.map_reverse]

theorem stripChars_subset (l : List Char) : ∀ c ∈ stripChars l, c ∈ l := by
  intro c hc
  unfold stripChars at hc
  rw [List.mem_reverse] at hc
  have h1 := (List.dropWhile_suffix isPySpace).subset hc
  rw [List.mem_reverse] at h1
  exact (List.dropWhile_suffix isPySpace).subset h1

/-! ### Well-formed tags and the split/join round trip -/

/-- A tag string as the script's own parsing produces it: nonempty, free
of commas, and carrying no leading or trailing whitespace.  Every tag
read from the `relevant_tags_cache` table or from a product's tag string
has this shape, because both are obtained by comma-splitting, stripping
and discarding empties. -/
def WFTag (t : String) : Prop :=
  t.data ≠ [] ∧ ',' ∉ t.data ∧ t.data.dropWhile isPySpace = t.data ∧
  t.data.reverse.dropWhile isPySpace = t.data.reverse

instance (t : String) : Decidable (WFTag t) :=
  inferInstanceAs (Decidable (_ ∧ _ ∧ _ ∧ _))

theorem mk_data (t : String) : String.mk t.data = t := by
  cases t
  rfl

theorem data_ne_nil_iff {t : String} : t.data ≠ [] ↔ t ≠ "" := by
  constructor
  · intro h heq
    rw [heq] at h
    exact h rfl
  · intro h heq
    apply h
    rw [← mk_data t, heq]

theorem splitCommaAux_no_comma : ∀ (l acc : List Char), ',' ∉ acc →
    ∀ piece ∈ splitCommaAux l acc, ',' ∉ piece
  | [], acc, hacc, piece, hp => by
      simp only [splitCommaAux, List.mem_singleton] at hp
      subst hp
      simpa [List.mem_reverse] using hacc
  | c :: cs, acc, hacc, piece, hp => by
      by_cases hc : c = ','
      · rw [splitCommaAux, if_pos hc] at hp
        rcases List.mem_cons.mp hp with h | h
        · subst h
          simpa [List.mem_reverse] using hacc
        · exact splitCommaAux_no_comma cs [] (List.not_mem_nil ',') piece h
      · rw [splitCommaAux, if_neg hc] at hp
        refine splitCommaAux_no_comma cs (c :: acc) ?_ piece hp
        intro hmem
        rcases List.mem_cons.mp hmem with h | h
        · exact hc h.symm
        · exact hacc h

theorem mem_splitTags_wf (s : String) : ∀ t ∈ splitTags s, WFTag t := by
  intro t ht
  unfold splitTags at ht
  rw [List.mem_filter] at ht
  obtain ⟨hmem, hne⟩ := ht
  rw [List.mem_map] at hmem
  obtain ⟨piece, hpiece, hstrip⟩ := hmem
  have hnonempty : t.data ≠ [] := by
    rw [data_ne_nil_iff]
    simpa using hne
  have hdata : t.data = stripChars piece.data := by
    rw [← hstrip]
    rfl
  refine ⟨hnonempty, ?_, ?_, ?_⟩
  · rw [hdata]
    intro hcomma
    have hsub := stripChars_subset piece.data ',' hcomma
    unfold splitComma at hpiece
    rw [List.mem_map] at hpiece
    obtain ⟨cs, hcs, hcseq⟩ := hpiece
    have : ',' ∉ cs := splitCommaAux_no_comma s.data [] (List.not_mem_nil ',') cs hcs
    rw [← hcseq] at hsub
    exact this hsub
  · rw [hdata]
    exact stripChars_dropWhile piece.data
  · rw [hdata]
    exact stripChars_reverse_dropWhile piece.data

theorem lowerChar_eq_comma {c : Char} (h : lowerChar c = ',') : c = ',' :=
  by_contra fun hne => lowerChar_ne_comma hne h

theorem WFTag_pyLower {t : String} (h : WFTag t) : WFTag (pyLower t) := by
  obtain ⟨h1, h2, h3, h4⟩ := h
  have hdata : (pyLower t).data = t.data.map lowerChar := rfl
  refine ⟨?_, ?_, ?_, ?_⟩
  · rw [hdata]
    simpa using h1
  · rw [hdata]
    intro hc
    rw [List.mem_map] at hc
    obtain ⟨c, hcmem, hceq⟩ := hc
    rw [lowerChar_eq_comma hceq] at hcmem
    exact h2 hcmem
  · rw [hdata, dropWhile_map isPySpace_lowerChar, h3]
  · rw [hdata, ← List.map_reverse, dropWhile_map isPySpace_lowerChar, h4]

theorem WFTag_normalizeTag {t : String} (h : WFTag t) : WFTag (normalizeTag t) := by
  unfold normalizeTag
  by_cases hb : pyLower t = "best seller"
  · rw [if_pos hb]
    decide
  · rw [if_neg hb]
    exact WFTag_pyLower h

theorem splitCommaAux_append_no_comma : ∀ (l r acc : List Char), ',' ∉ l →
    splitCommaAux (l ++ r) acc = splitCommaAux r (l.reverse ++ acc)
  | [], _, _, _ => by simp
  | c :: cs, r, acc, h => by
      have hc : ¬c = ',' := fun hh => h (hh ▸ List.mem_cons_self c cs)
      rw [List.cons_append, splitCommaAux, if_neg hc,
        splitCommaAux_append_no_comma cs r (c :: acc) (fun hm => h (List.mem_cons_of_mem c hm))]
      simp

theorem splitCommaAux_join : ∀ ts : List (List Char), ts ≠ [] →
    (∀ t ∈ ts, ',' ∉ t) → splitCommaAux (joinCommaChars ts) [] = ts
  | [], h, _ => absurd rfl h
  | [t], _, hcomma => by
      have h1 : ',' ∉ t := hcomma t (List.mem_singleton_self t)
      have h2 := splitCommaAux_append_no_comma t [] [] h1
      simpa [joinCommaChars, splitCommaAux] using h2
  | t :: t' :: ts, _, hcomma => by
      have h1 : ',' ∉ t := hcomma t (List.mem_cons_self t _)
      rw [show joinCommaChars (t :: t' :: ts) = t ++ ',' :: joinCommaChars (t' :: ts) from rfl,
        splitCommaAux_append_no_comma t (',' :: joinCommaChars (t' :: ts)) [] h1,
        splitCommaAux, if_pos rfl]
      simp only [List.append_nil, List.reverse_reverse]
      rw [splitCommaAux_join (t' :: ts) (List.cons_ne_nil t' ts)
        (fun u hu => hcomma u (List.mem_cons_of_mem t hu))]

theorem pyStrip_of_wf {t : String} (h : WFTag t) : pyStrip t = t := by
  obtain ⟨_, _, h3, h4⟩ := h
  unfold pyStrip
  rw [stripChars_of_clean h3 h4, mk_data]

theorem splitTags_joinComma : ∀ {ts : List String}, (∀ t ∈ ts, WFTag t) →
    splitTags (joinComma ts) = ts := by
  intro ts h
  cases ts with
  | nil => decide
  | cons t0 rest =>
      have hmapne : (t0 :: rest).map String.data ≠ [] := by simp
      have hcomma : ∀ u ∈ (t0 :: rest).map String.data, ',' ∉ u := by
        intro u hu
        rw [List.mem_map] at hu
        obtain ⟨v, hv, hveq⟩ := hu
        rw [← hveq]
        exact (h v hv).2.1
      have hsplit : splitComma (joinComma (t0 :: rest)) = t0 :: rest := by
        unfold splitComma joinComma
        rw [show (String.mk (joinCommaChars ((t0 :: rest).map String.data))).data
            = joinCommaChars ((t0 :: rest).map String.data) from rfl]
        rw [splitCommaAux_join _ hmapne hcomma, List.map_map]
        have hcong : ((t0 :: rest).map ((fun cs => (⟨cs⟩ : String)) ∘ String.data))
            = (t0 :: rest).map id :=
          List.map_congr_left fun u _ => mk_data u
        rw [hcong, List.map_id]
      unfold splitTags
      rw [hsplit]
      have hmap : (t0 :: rest).map pyStrip = (t0 :: rest).map id :=
        List.map_congr_left fun u hu => pyStrip_of_wf (h u hu)
      rw [hmap, List.map_id]
      refine List.filter_eq_self.mpr fun a ha => ?_
      simpa using data_ne_nil_iff.mp (h a ha).1

/-! ### Normalisation and the new-tag computation -/

theorem normalizeTag_normalizeTag (t : String) :
    normalizeTag (normalizeTag t) = normalizeTag t := by
  unfold normalizeTag
  by_cases hb : pyLower t = "best seller"
  · rw [if_pos hb]
    decide
  · rw [if_neg hb]
    simp only [pyLower_pyLower, if_neg hb]

theorem pyLower_normalizeTag (t : String) :
    pyLower (normalizeTag t) = normalizeTag t := by
  unfold normalizeTag
  by_cases hb : pyLower t = "best seller"
  · rw [if_pos hb]
    decide
  · rw [if_neg hb]
    exact pyLower_pyLower t

theorem newTags_toFinset (tl sl : List String) (qty : ℕ) :
    (newTags tl sl qty).toFinset =
      if qty = 0 then combinedTagSet tl sl \ RELEVANT_TAGS else combinedTagSet tl sl := by
  unfold newTags
  by_cases h : qty = 0
  · rw [if_pos h, if_pos h, pySortedSet_toFinset, List.toFinset_filter,
      Finset.sdiff_eq_filter]
    apply Finset.filter_congr
    intro t _
    simp [combinedTagSet]
  · rw [if_neg h, if_neg h, pySortedSet_toFinset]
    rfl

theorem mem_newTags_mem_combined {tl sl : List String} {qty : ℕ} {t : String}
    (h : t ∈ newTags tl sl qty) : t ∈ combinedTagSet tl sl := by
  rw [← List.mem_toFinset, newTags_toFinset] at h
  by_cases hq : qty = 0
  · rw [if_pos hq] at h
    exact (Finset.mem_sdiff.mp h).1
  · rwa [if_neg hq] at h

theorem mem_combinedTagSet_norm {tl sl : List String} {t : String}
    (h : t ∈ combinedTagSet tl sl) : normalizeTag t = t := by
  rw [combinedTagSet, List.mem_toFinset, List.mem_map] at h
  obtain ⟨x, _, hx⟩ := h
  rw [← hx]
  exact normalizeTag_normalizeTag x

theorem mem_combinedTagSet_wf {tl sl : List String} {t : String}
    (htl : ∀ u ∈ tl, WFTag u) (hsl : ∀ u ∈ sl, WFTag u)
    (h : t ∈ combinedTagSet tl sl) : WFTag t := by
  rw [combinedTagSet, List.mem_toFinset, List.mem_map] at h
  obtain ⟨x, hxmem, hx⟩ := h
  rw [← hx]
  rcases List.mem_append.mp hxmem with hm | hm
  · exact WFTag_normalizeTag (htl x hm)
  · exact WFTag_normalizeTag (hsl x hm)

theorem map_normalizeTag_newTags (tl sl : List String) (qty : ℕ) :
    (newTags tl sl qty).map normalizeTag = newTags tl sl qty := by
  have h : ∀ t ∈ newTags tl sl qty, normalizeTag t = t := fun t ht =>
    mem_combinedTagSet_norm (mem_newTags_mem_combined ht)
  rw [List.map_congr_left h]
  exact List.map_id _

theorem combinedTagSet_append_eq (tl₂ nt : List String)
    (hfix : nt.map normalizeTag = nt) :
    combinedTagSet tl₂ nt = (tl₂.map normalizeTag).toFinset ∪ nt.toFinset := by
  unfold combinedTagSet
  rw [List.map_append, List.toFinset_append, hfix]

theorem newTags_sorted (tl sl : List String) (qty : ℕ) :
    List.Sorted strLe (newTags tl sl qty) := by
  unfold newTags
  split
  · exact pySortedSet_sorted _
  · exact pySortedSet_sorted _

theorem newTags_nodup (tl sl : List String) (qty : ℕ) : (newTags tl sl qty).Nodup := by
  unfold newTags
  split
  · exact pySortedSet_nodup _
  · exact pySortedSet_nodup _

theorem newTags_fixpoint (tl sl : List String) (qty : ℕ) (tl₂ : List String)
    (htl₂ : tl₂ = tl ∨ tl₂ = newTags tl sl qty) :
    newTags tl₂ (newTags tl sl qty) qty = newTags tl sl qty := by
  have hfix := map_normalizeTag_newTags tl sl qty
  have hsub : (tl₂.map normalizeTag).toFinset ⊆ combinedTagSet tl sl := by
    rcases htl₂ with h | h
    · subst h
      intro t ht
      rw [combinedTagSet, List.map_append, List.toFinset_append]
      exact Finset.mem_union_left _ ht
    · subst h
      rw [hfix, newTags_toFinset]
      by_cases hq : qty = 0
      · rw [if_pos hq]
        intro t ht
        exact (Finset.mem_sdiff.mp ht).1
      · rw [if_neg hq]
  have hcomb : combinedTagSet tl₂ (newTags tl sl qty) =
      (tl₂.map normalizeTag).toFinset ∪ (newTags tl sl qty).toFinset :=
    combinedTagSet_append_eq tl₂ (newTags tl sl qty) hfix
  have hset : (newTags tl₂ (newTags tl sl qty) qty).toFinset
      = (newTags tl sl qty).toFinset := by
    by_cases hq : qty = 0
    · have hntF : (newTags tl sl qty).toFinset = combinedTagSet tl sl \ RELEVANT_TAGS := by
        rw [newTags_toFinset, if_pos hq]
      rw [newTags_toFinset, if_pos hq, hcomb, hntF, Finset.union_sdiff_distrib,
        Finset.sdiff_idem]
      exact Finset.union_eq_right.mpr
        (Finset.sdiff_subset_sdiff hsub (Finset.Subset.refl _))
    · have hntF : (newTags tl sl qty).toFinset = combinedTagSet tl sl := by
        rw [newTags_toFinset, if_neg hq]
      rw [newTags_toFinset, if_neg hq, hcomb, hntF]
      exact Finset.union_eq_right.mpr hsub
  refine List.eq_of_perm_of_sorted ?_ (newTags_sorted _ _ _) (newTags_sorted _ _ _)
  refine (List.perm_ext_iff_of_nodup (newTags_nodup _ _ _) (newTags_nodup _ _ _)).mpr
    fun a => ?_
  rw [← List.mem_toFinset, ← List.mem_toFinset, hset]

/-! ### Plan-level helpers -/

theorem lookup_mem {β : Type} :
    ∀ {l : List (String × β)} {k : String} {v : β}, l.lookup k = some v → (k, v) ∈ l
  | [], k, v, h => by simp [List.lookup] at h
  | (k', v') :: rest, k, v, h => by
      by_cases hk : k == k'
      · have hkk : k = k' := by simpa using hk
        rw [List.lookup, hk] at h
        have : v' = v := by simpa using h
        subst this
        subst hkk
        exact List.mem_cons_self _ _
      · rw [List.lookup, Bool.of_not_eq_true hk] at h
        exact List.mem_cons_of_mem _ (lookup_mem h)

theorem processProduct1_eq_some {db : List (String × List String)}
    {pm : DecNum → Option ℕ} {p : Product} {pl : TagPlan} :
    processProduct1 db pm p = some pl ↔
      ∃ nf qty, extract_perfume_number_from_product_title p.title = some nf ∧
        pm nf = some qty ∧ pl = mkPlan1 db p qty := by
  simp only [processProduct1, Option.bind_eq_some, Option.map_eq_some']
  constructor
  · rintro ⟨nf, hnf, qty, hqty, hpl⟩
    exact ⟨nf, qty, hnf, hqty, hpl.symm⟩
  · rintro ⟨nf, qty, hnf, hqty, hpl⟩
    exact ⟨nf, hnf, qty, hqty, hpl.symm⟩

theorem processProduct2_eq_some {db : List (String × List String)}
    {pm : DecNum → Option ℕ} {p1 : Product} {tmap : List (String × Product)}
    {pr : String × TagPlan} :
    processProduct2 db pm p1 tmap = some pr ↔
      ∃ nf qty s2, extract_perfume_number_from_product_title p1.title = some nf ∧
        pm nf = some qty ∧ tmap.lookup (pyLower p1.title) = some s2 ∧
        pr = (s2.id, mkPlan2 db p1 s2 qty) := by
  simp only [processProduct2, Option.bind_eq_some, Option.map_eq_some']
  constructor
  · rintro ⟨nf, hnf, qty, hqty, s2, hs2, hpr⟩
    exact ⟨nf, qty, s2, hnf, hqty, hs2, hpr.symm⟩
  · rintro ⟨nf, qty, s2, hnf, hqty, hs2, hpr⟩
    exact ⟨nf, hnf, qty, hqty, s2, hs2, hpr.symm⟩

theorem mkPlan1_tagWrite (db : List (String × List String)) (p : Product) (qty : ℕ) :
    (mkPlan1 db p qty).tagWrite =
      newTags ((db.lookup p.id).getD (splitTags p.tags)) (splitTags p.tags) qty := rfl

theorem mkPlan2_tagWrite (db : List (String × List String)) (p1 s2 : Product) (qty : ℕ) :
    (mkPlan2 db p1 s2 qty).tagWrite =
      newTags ((db.lookup p1.id).getD (splitTags p1.tags)) (splitTags s2.tags) qty := rfl

theorem taglist_wf (db : List (String × List String)) (p : Product)
    (hcache : ∀ e ∈ db, ∀ t ∈ e.2, WFTag t) :
    ∀ u ∈ (db.lookup p.id).getD (splitTags p.tags), WFTag u := by
  cases hl : db.lookup p.id with
  | none =>
      simp only [hl, Option.getD_none]
      exact mem_splitTags_wf p.tags
  | some c =>
      simp only [hl, Option.getD_some]
      exact hcache (p.id, c) (lookup_mem hl)

theorem tagWrite_wf (db : List (String × List String)) (p : Product) (qty : ℕ)
    (hcache : ∀ e ∈ db, ∀ t ∈ e.2, WFTag t) :
    ∀ t ∈ (mkPlan1 db p qty).tagWrite, WFTag t := by
  intro t ht
  rw [mkPlan1_tagWrite] at ht
  exact mem_combinedTagSet_wf (taglist_wf db p hcache) (mem_splitTags_wf p.tags)
    (mem_newTags_mem_combined ht)

theorem mkPlan1_second_run (db : List (String × List String)) (p : Product) (qty : ℕ)
    (hcache : ∀ e ∈ db, ∀ t ∈ e.2, WFTag t) :
    mkPlan1 db { p with tags := joinComma (mkPlan1 db p qty).tagWrite } qty
      = mkPlan1 db p qty := by
  have hwf := tagWrite_wf db p qty hcache
  have hsplit : splitTags (joinComma (mkPlan1 db p qty).tagWrite)
      = (mkPlan1 db p qty).tagWrite := splitTags_joinComma hwf
  rw [mkPlan1_tagWrite] at hsplit
  unfold mkPlan1
  simp only [hsplit]
  cases hl : db.lookup p.id with
  | none =>
      simp only [hl, Option.getD_none]
      rw [newTags_fixpoint _ _ _ _ (Or.inr rfl)]
  | some c =>
      simp only [hl, Option.getD_some]
      rw [newTags_fixpoint _ _ _ _ (Or.inl rfl)]

theorem collection_apply_eq_wanted (series : List String) (colMap : List (String × ℤ))
    (existing : Finset ℤ) :
    applyCollectionMutations existing (collectionMutations series colMap existing)
      = wantedCollectionIds series colMap := by
  unfold applyCollectionMutations collectionMutations
  simp only
  rw [Finset.sdiff_sdiff_self_left, Finset.inter_comm, Finset.union_comm,
    Finset.sdiff_union_inter]

theorem collection_mutations_idem (series : List String) (colMap : List (String × ℤ))
    (existing : Finset ℤ) :
    collectionMutations series colMap
      (applyCollectionMutations existing (collectionMutations series colMap existing))
      = (∅, ∅) := by
  rw [collection_apply_eq_wanted]
  unfold collectionMutations
  simp [Finset.sdiff_self]

theorem mem_newTags {tl sl : List String} {qty : ℕ} {t : String} :
    t ∈ newTags tl sl qty ↔
      t ∈ combinedTagSet tl sl ∧ (qty = 0 → t ∉ RELEVANT_TAGS) := by
  rw [← List.mem_toFinset, newTags_toFinset]
  by_cases hq : qty = 0
  · rw [if_pos hq]
    simp [Finset.mem_sdiff, hq]
  · rw [if_neg hq]
    simp [hq]

theorem apply_empty_series (colMap : List (String × ℤ)) (existing : Finset ℤ) :
    applyCollectionMutations existing (collectionMutations [] colMap existing) = ∅ := by
  rw [collection_apply_eq_wanted]
  simp [wantedCollectionIds]

theorem newTags_zero_plan {tl sl : List String} {t : String}
    (h : t ∈ newTags tl sl 0) : normalizeTag t ∉ RELEVANT_TAGS := by
  rw [mem_combinedTagSet_norm (mem_newTags_mem_combined h)]
  exact (mem_newTags.mp h).2 rfl

/-! ## Claims -/

/-- C1, counterexample.  The claim asserts that a tag mutation is emitted
only when the computed target differs from the product's current tags,
so that a second run against the state produced by the first emits no
mutations.  The code has no such guard: `update_product_tags` and
`update_inventory_level` are called unconditionally on every processed
product.  Here is a product whose current normalised tag list already
equals the computed target (so the state is exactly what a first run
would produce), yet the plan still carries an inventory write and a tag
write — mutations are emitted although `target = currentTags`. -/
theorem C1_counterexample :
    processProduct1 [] (buildParfnumMap [("5", "2")])
        { id := "1", title := "parfym 5", tags := "male", variants := [some 7] }
      = some { qty := 2, invWrites := [7], tagWrite := ["male"], wantedSeries := ["men"] } ∧
    (splitTags "male").map normalizeTag = ["male"] := by
  decide

/-- C1, amended.  State-level idempotence does hold: re-running the
per-product reconciliation against the state produced by the first run
(the tag string written back, the collection memberships after the
emitted adds/removes) computes exactly the same plan — the same tag
list, quantity and series — and an empty collection diff; but the tag
and inventory writes themselves are re-emitted unconditionally as
value-level no-ops rather than being suppressed. -/
theorem C1_second_run_fixpoint
    (db : List (String × List String)) (pm : DecNum → Option ℕ) (p : Product)
    (colMap : List (String × ℤ)) (existing : Finset ℤ) (pl : TagPlan)
    (hcache : ∀ e ∈ db, ∀ t ∈ e.2, WFTag t)
    (hplan : processProduct1 db pm p = some pl) :
    processProduct1 db pm { p with tags := joinComma pl.tagWrite } = some pl ∧
    collectionMutations pl.wantedSeries colMap
      (applyCollectionMutations existing
        (collectionMutations pl.wantedSeries colMap existing)) = (∅, ∅) := by
  obtain ⟨nf, qty, hnf, hqty, hpl⟩ := processProduct1_eq_some.mp hplan
  subst hpl
  refine ⟨?_, collection_mutations_idem _ _ _⟩
  exact processProduct1_eq_some.mpr
    ⟨nf, qty, hnf, hqty, (mkPlan1_second_run db p qty hcache).symm⟩

/-- C1, witness for the amended theorem at a concrete input. -/
theorem C1_witness :
    processProduct1 [("1", ["female"])] (buildParfnumMap [("5", "3")])
        { id := "1", title := "parfym 5",
          tags := joinComma ["female", "male"], variants := [some 7] }
      = some { qty := 3, invWrites := [7], tagWrite := ["female", "male"],
               wantedSeries := ["men", "women"] } ∧
    collectionMutations ["men", "women"] [("men", 1), ("women", 2)]
      (applyCollectionMutations {5}
        (collectionMutations ["men", "women"] [("men", 1), ("women", 2)] {5})) = (∅, ∅) :=
  C1_second_run_fixpoint [("1", ["female"])] (buildParfnumMap [("5", "3")])
    { id := "1", title := "parfym 5", tags := "male", variants := [some 7] }
    [("men", 1), ("women", 2)] {5}
    { qty := 3, invWrites := [7], tagWrite := ["female", "male"],
      wantedSeries := ["men", "women"] }
    (by decide) (by decide)

/-- C2.  Zero-quantity postcondition, on both store paths: when the
computed quantity is 0, no tag in the written tag list is a managed tag
(even after canonical normalisation, under which each written tag is a
fixed point), the series list passed to the collection update is empty,
and applying the emitted membership mutations leaves the product in no
collection at all. -/
theorem C2_zero_quantity_postcondition
    (db : List (String × List String)) (pm : DecNum → Option ℕ) :
    (∀ (p : Product) (pl : TagPlan), processProduct1 db pm p = some pl → pl.qty = 0 →
      (∀ t ∈ pl.tagWrite, normalizeTag t ∉ RELEVANT_TAGS) ∧
      pl.wantedSeries = [] ∧
      ∀ (colMap : List (String × ℤ)) (existing : Finset ℤ),
        applyCollectionMutations existing
          (collectionMutations pl.wantedSeries colMap existing) = ∅) ∧
    (∀ (p1 : Product) (tmap : List (String × Product)) (s2id : String) (pl : TagPlan),
      processProduct2 db pm p1 tmap = some (s2id, pl) → pl.qty = 0 →
      (∀ t ∈ pl.tagWrite, normalizeTag t ∉ RELEVANT_TAGS) ∧
      pl.wantedSeries = [] ∧
      ∀ (colMap : List (String × ℤ)) (existing : Finset ℤ),
        applyCollectionMutations existing
          (collectionMutations pl.wantedSeries colMap existing) = ∅) := by
  constructor
  · intro p pl hplan hq
    obtain ⟨nf, qty, _, _, hpl⟩ := processProduct1_eq_some.mp hplan
    subst hpl
    have hq0 : qty = 0 := hq
    subst hq0
    refine ⟨fun t ht => newTags_zero_plan ht, rfl, fun colMap existing => ?_⟩
    exact apply_empty_series colMap existing
  · intro p1 tmap s2id pl hplan hq
    obtain ⟨nf, qty, s2, _, _, _, hpr⟩ := processProduct2_eq_some.mp hplan
    have hpl : pl = mkPlan2 db p1 s2 qty := congrArg Prod.snd hpr
    subst hpl
    have hq0 : qty = 0 := hq
    subst hq0
    refine ⟨fun t ht => newTags_zero_plan ht, rfl, fun colMap existing => ?_⟩
    exact apply_empty_series colMap existing

/-- C2, witness at a concrete zero-quantity product. -/
theorem C2_witness :
    (∀ t ∈ (["summer"] : List String), normalizeTag t ∉ RELEVANT_TAGS) ∧
    ([] : List String) = [] ∧
    ∀ (colMap : List (String × ℤ)) (existing : Finset ℤ),
      applyCollectionMutations existing
        (collectionMutations [] colMap existing) = ∅ :=
  (C2_zero_quantity_postcondition [] (buildParfnumMap [("5", "0")])).1
    { id := "1", title := "parfym 5", tags := "best seller, Summer", variants := [] }
    { qty := 0, invWrites := [], tagWrite := ["summer"], wantedSeries := [] }
    (by decide) rfl

/-- C3, counterexample.  The claim asserts that after a positive-quantity
run the live tag set is exactly the non-managed live tags united with
the cached managed tags, i.e. that no managed tag outside the cache
entry survives.  In the code the target is `currentTags ∪ cachedManaged`,
so a live managed tag missing from the cache entry survives: here the
cache holds only `female`, the product carries `male`, and the written
list is `["female", "male"]` — the managed tag `male`, not in the cache
entry, is still present. -/
theorem C3_counterexample :
    processProduct1 [("1", ["female"])] (buildParfnumMap [("5", "1")])
        { id := "1", title := "parfym 5", tags := "male", variants := [] }
      = some { qty := 1, invWrites := [], tagWrite := ["female", "male"],
               wantedSeries := ["men", "women"] } ∧
    "male" ∈ RELEVANT_TAGS ∧
    "male" ∉ ["female"].map normalizeTag ∧
    "male" ∈ ["female", "male"] := by
  decide

/-- C3, amended.  The live tag set after processing equals the union of
the normalised current tags and the normalised cached tags (the cache
entry itself, or the live list again when the product has no entry),
minus every managed tag when the quantity is 0 — live managed tags
survive a positive-quantity run even when absent from the cache. -/
theorem C3_tag_invariant_amended
    (db : List (String × List String)) (pm : DecNum → Option ℕ)
    (p : Product) (pl : TagPlan)
    (hplan : processProduct1 db pm p = some pl) :
    pl.tagWrite.toFinset =
      specTargetTags ((splitTags p.tags).map normalizeTag).toFinset
        (((db.lookup p.id).getD (splitTags p.tags)).map normalizeTag).toFinset
        pl.qty := by
  obtain ⟨nf, qty, _, _, hpl⟩ := processProduct1_eq_some.mp hplan
  subst hpl
  rw [mkPlan1_tagWrite, newTags_toFinset]
  show _ = specTargetTags _ _ qty
  unfold specTargetTags
  have hcomb : combinedTagSet ((db.lookup p.id).getD (splitTags p.tags)) (splitTags p.tags)
      = (((db.lookup p.id).getD (splitTags p.tags)).map normalizeTag).toFinset ∪
        ((splitTags p.tags).map normalizeTag).toFinset := by
    rw [combinedTagSet, List.map_append, List.toFinset_append]
  rw [hcomb, Finset.union_comm]

/-- C3, witness for the amended theorem at a concrete input. -/
theorem C3_witness :
    ({ qty := 1, invWrites := [], tagWrite := ["female", "male"],
       wantedSeries := ["men", "women"] } : TagPlan).tagWrite.toFinset =
      specTargetTags ((splitTags "male").map normalizeTag).toFinset
        ((["female"].map normalizeTag).toFinset)
        ({ qty := 1, invWrites := [], tagWrite := ["female", "male"],
           wantedSeries := ["men", "women"] } : TagPlan).qty :=
  C3_tag_invariant_amended [("1", ["female"])] (buildParfnumMap [("5", "1")])
    { id := "1", title := "parfym 5", tags := "male", variants := [] }
    { qty := 1, invWrites := [], tagWrite := ["female", "male"],
      wantedSeries := ["men", "women"] }
    (by decide)

/-- C4.  Collection diff minimality: a membership that is both existing
and wanted is touched by neither mutation set; a wanted series name with
no entry in the configured map contributes nothing; and on the spec's
concrete example (existing `{men, unisex}`, wanted `{men, bestsellers}`)
the emitted mutations are exactly `add(bestsellers)` and
`remove(unisex)`. -/
theorem C4_collection_diff_minimality :
    (∀ (series : List String) (colMap : List (String × ℤ)) (existing : Finset ℤ),
      ∀ c ∈ existing, c ∈ wantedCollectionIds series colMap →
        c ∉ (collectionMutations series colMap existing).1 ∧
        c ∉ (collectionMutations series colMap existing).2) ∧
    (∀ (series : List String) (colMap : List (String × ℤ)) (existing : Finset ℤ)
        (s : String), colMap.lookup s = none →
      collectionMutations (s :: series) colMap existing
        = collectionMutations series colMap existing) ∧
    collectionMutations ["men", "bestsellers"]
        [("men", 1), ("women", 2), ("unisex", 3), ("bestsellers", 4)]
        {1, 3} = ({4}, {3}) := by
  refine ⟨?_, ?_, by decide⟩
  · intro series colMap existing c hex hw
    constructor
    · intro hc
      exact (Finset.mem_sdiff.mp hc).2 hex
    · intro hc
      exact (Finset.mem_sdiff.mp hc).2 hw
  · intro series colMap existing s h
    simp [collectionMutations, wantedCollectionIds, List.filterMap_cons, h]

/-- C4, witness at a concrete membership that is both existing and
wanted. -/
theorem C4_witness :
    (1 : ℤ) ∉ (collectionMutations ["men"] [("men", 1)] {1}).1 ∧
    (1 : ℤ) ∉ (collectionMutations ["men"] [("men", 1)] {1}).2 :=
  C4_collection_diff_minimality.1 ["men"] [("men", 1)] {1} 1 (by decide) (by decide)

/-- C5, counterexample.  The claim (and spec §8) require
`"1 000,00 kr Gift Card"` to yield no match; the regex
`\b(\d{1,3}(\.\d+)?)(?!\s*\d)` actually matches the run `000` of the
thousands group — the lookahead only rejects a candidate followed by
optional whitespace and a digit, and here a comma follows — so
extraction returns `0.0`, not `None`. -/
theorem C5_counterexample :
    extract_perfume_number_from_product_title "1 000,00 kr Gift Card"
      = some { neg := false, ip := 0, fr := [] } ∧
    DecNum.toQ { neg := false, ip := 0, fr := [] } = 0 := by
  refine ⟨by decide, ?_⟩
  norm_num [DecNum.toQ, fracVal]

/-- C5, amended.  Extraction returns the first 1–3 digit run at a word
boundary (with optional fraction), rejected only when followed by
optional whitespace and another digit: `"Eau de Parfum 149"` yields
`149.0`, a digit run of four or more yields nothing (`"a 1234 b"`), but
`"1 000,00 kr Gift Card"` yields `0.0` — the `000` group before the
comma is matched, since a comma does not trigger the lookahead. -/
theorem C5_extraction_amended :
    extract_perfume_number_from_product_title "Eau de Parfum 149"
      = some { neg := false, ip := 149, fr := [] } ∧
    DecNum.toQ { neg := false, ip := 149, fr := [] } = 149 ∧
    extract_perfume_number_from_product_title "a 1234 b" = none ∧
    extract_perfume_number_from_product_title "1 000,00 kr Gift Card"
      = some { neg := false, ip := 0, fr := [] } := by
  refine ⟨by decide, ?_, by decide, by decide⟩
  norm_num [DecNum.toQ, fracVal]

/-- C6.  Feed parsing: a row whose number or count field is empty or
unparsable is skipped without affecting the rest; U+2212 is normalised
to ASCII hyphen before parsing, so `"−12"` parses and is clamped to 0;
and when two rows carry the same number the later one wins. -/
theorem C6_feed_parsing_contract :
    (∀ (pre post : List (String × String)) (r : String × String),
        parseFeedRow r = none →
        buildParfnumMap (pre ++ r :: post) = buildParfnumMap (pre ++ post)) ∧
    (∀ n a : String, pyIntZ (normalize_minus_sign a) = none →
        parseFeedRow (n, a) = none) ∧
    (∀ a : String, parseFeedRow ("", a) = none) ∧
    parseFeedRow ("5", "−12") = some ({ neg := false, ip := 5, fr := [] }, 0) ∧
    (∀ (rows : List (String × String)) (r : String × String) (nf : DecNum) (ai : ℕ),
        parseFeedRow r = some (nf, ai) →
        buildParfnumMap (rows ++ [r]) nf = some ai) := by
  refine ⟨?_, ?_, ?_, by decide, ?_⟩
  · intro pre post r h
    unfold buildParfnumMap
    rw [List.foldl_append, List.foldl_append, List.foldl_cons, h]
  · intro n a h
    show (if (normalize_minus_sign n = "" || normalize_minus_sign a = "") then none
      else
        match pyFloatDec (normalize_minus_sign n), pyIntZ (normalize_minus_sign a) with
        | some nf, some ai => some (nf, if ai < 0 then 0 else ai.toNat)
        | some _, none => none
        | none, _ => none) = none
    rw [h]
    split
    · rfl
    · split <;> simp_all
  · intro a
    unfold parseFeedRow
    simp [normalize_minus_sign]
  · intro rows r nf ai h
    unfold buildParfnumMap
    rw [List.foldl_append, List.foldl_cons, List.foldl_nil, h]
    simp

/-- C6, witness: a malformed row in the middle is skipped, and a
duplicate number is overwritten by the later row. -/
theorem C6_witness :
    buildParfnumMap ([("5", "1")] ++ ("", "9") :: [("7", "2")])
      = buildParfnumMap ([("5", "1")] ++ [("7", "2")]) ∧
    buildParfnumMap ([("5", "1")] ++ [("5", "2")]) { neg := false, ip := 5, fr := [] }
      = some 2 :=
  ⟨(C6_feed_parsing_contract.1 [("5", "1")] [("7", "2")] ("", "9") (by decide)),
   (C6_feed_parsing_contract.2.2.2.2 [("5", "1")] ("5", "2")
      { neg := false, ip := 5, fr := [] } 2 (by decide))⟩

/-- C7, counterexample.  The claim asserts that a tag outside
`RELEVANT_TAGS` is never added or removed.  The spelling `best seller`
is not a member of `RELEVANT_TAGS` (which holds only `bestseller`), yet
normalisation rewrites it and, at quantity 0, the resulting `bestseller`
is stripped: a product carrying only the non-managed tag `best seller`
ends with an empty tag list — a non-managed tag was removed. -/
theorem C7_counterexample :
    processProduct1 [] (buildParfnumMap [("5", "0")])
        { id := "1", title := "parfym 5", tags := "best seller", variants := [] }
      = some { qty := 0, invWrites := [], tagWrite := [], wantedSeries := [] } ∧
    "best seller" ∈ splitTags "best seller" ∧
    "best seller" ∉ RELEVANT_TAGS := by
  decide

/-- C7, amended.  Up to lower-casing, a live tag that is neither managed
nor the spelling `best seller` always survives into the written list,
whatever the quantity; and every non-managed tag of the written list is
the normalisation of some tag the product or its cache entry already
carried (so the only non-managed additions are cache-sourced). -/
theorem C7_nonmanaged_preservation_amended
    (db : List (String × List String)) (pm : DecNum → Option ℕ)
    (p : Product) (pl : TagPlan)
    (hplan : processProduct1 db pm p = some pl) :
    (∀ t ∈ splitTags p.tags, pyLower t ∉ RELEVANT_TAGS → pyLower t ≠ "best seller" →
        pyLower t ∈ pl.tagWrite) ∧
    (∀ u ∈ pl.tagWrite, u ∉ RELEVANT_TAGS →
        ∃ t, (t ∈ (db.lookup p.id).getD (splitTags p.tags) ∨ t ∈ splitTags p.tags) ∧
          normalizeTag t = u) := by
  obtain ⟨nf, qty, _, _, hpl⟩ := processProduct1_eq_some.mp hplan
  subst hpl
  rw [mkPlan1_tagWrite]
  constructor
  · intro t ht hrel hbs
    have hnorm : normalizeTag t = pyLower t := by
      unfold normalizeTag
      rw [if_neg hbs]
    apply mem_newTags.mpr
    refine ⟨?_, fun _ => hrel⟩
    rw [combinedTagSet, List.mem_toFinset, ← hnorm]
    exact List.mem_map_of_mem _ (List.mem_append_right _ ht)
  · intro u hu _
    have hc := mem_newTags_mem_combined hu
    rw [combinedTagSet, List.mem_toFinset, List.mem_map] at hc
    obtain ⟨t, htmem, hteq⟩ := hc
    exact ⟨t, List.mem_append.mp htmem, hteq⟩

/-- C7, witness for the amended theorem at a concrete input. -/
theorem C7_witness :
    (∀ t ∈ splitTags "Summer, male", pyLower t ∉ RELEVANT_TAGS →
        pyLower t ≠ "best seller" →
        pyLower t ∈ (mkPlan1 [] { id := "1", title := "parfym 5", tags := "Summer, male", variants := [] } 2).tagWrite) ∧
    (∀ u ∈ (mkPlan1 [] { id := "1", title := "parfym 5", tags := "Summer, male", variants := [] } 2).tagWrite,
        u ∉ RELEVANT_TAGS →
        ∃ t, (t ∈ (List.lookup "1" ([] : List (String × List String))).getD
                (splitTags "Summer, male") ∨ t ∈ splitTags "Summer, male") ∧
          normalizeTag t = u) :=
  C7_nonmanaged_preservation_amended [] (buildParfnumMap [("5", "2")])
    { id := "1", title := "parfym 5", tags := "Summer, male", variants := [] }
    (mkPlan1 [] { id := "1", title := "parfym 5", tags := "Summer, male", variants := [] } 2)
    (by decide)

/-- C8.  Remote-call discipline of `safe_api_call` and of the
application-level handling: any number of transport failures is retried
(5-second wait each) until the first response, which is returned after
the fixed 1-second pacing pause with the remaining attempts unused; the
wrapper returns nothing only while every attempt so far has failed — a
transport failure is never surfaced; and a non-2xx application response
makes the mutation abandoned (logged, not retried). -/
theorem C8_remote_call_error_discipline :
    (∀ (α : Type) (n : ℕ) (r : α) (rest : List (CallAttempt α)),
        safe_api_call
          (List.replicate n CallAttempt.transportFailure ++ CallAttempt.response r :: rest)
          = some (List.replicate n 5 ++ [1], r)) ∧
    (∀ (α : Type) (l : List (CallAttempt α)),
        safe_api_call l = none ↔ ∀ a ∈ l, a = CallAttempt.transportFailure) ∧
    (∀ (status : ℕ) (qty : ℤ), status < 200 ∨ 300 ≤ status →
        update_inventory_level status qty = MutationResult.abandoned status) := by
  refine ⟨?_, ?_, ?_⟩
  · intro α n r rest
    induction n with
    | zero => simp [safe_api_call]
    | succ k ih => simp [List.replicate_succ, safe_api_call, ih]
  · intro α l
    induction l with
    | nil => simp [safe_api_call]
    | cons a rest ih =>
        cases a with
        | transportFailure => simp [safe_api_call, Option.map_eq_none', ih]
        | response r => simp [safe_api_call]
  · intro status qty h
    unfold update_inventory_level
    rw [if_neg (by omega)]

/-- C8, witness: two failures then a response, and a 404. -/
theorem C8_witness :
    safe_api_call (List.replicate 2 CallAttempt.transportFailure ++
        CallAttempt.response (7 : ℕ) :: []) = some ([5, 5, 1], 7) ∧
    update_inventory_level 404 3 = MutationResult.abandoned 404 :=
  ⟨C8_remote_call_error_discipline.1 ℕ 2 7 [],
   C8_remote_call_error_discipline.2.2 404 3 (by omega)⟩

/-- C9, counterexample.  The claim asserts that a missing store domain or
token is fatal at startup.  `main` only validates `DATABASE_URL` and
`GOOGLE_CREDENTIALS_JSON`: with both set and every store credential
absent, the startup checks succeed and the run proceeds to the feed and
catalog fetches. -/
theorem C9_counterexample :
    main_startup
      { databaseUrl := some "postgres: cache", store1Domain := none, store1Token := none,
        store2Domain := none, store2Token := none, googleCredentialsJson := some "svc" }
      = Except.ok () := rfl

/-- C9, amended.  Startup validates exactly the database URL and the
Google credentials: the run proceeds past the checks iff both are
present and nonempty, and a missing (or empty) database URL fails fast
with the `Saknas DATABASE_URL` error before anything is fetched. -/
theorem C9_startup_check_amended :
    (∀ env : Env, main_startup env = Except.ok () ↔
      (env.databaseUrl.getD "" ≠ "" ∧ env.googleCredentialsJson.getD "" ≠ "")) ∧
    (∀ env : Env, env.databaseUrl.getD "" = "" →
      main_startup env = Except.error "Saknas DATABASE_URL") := by
  constructor
  · intro env
    unfold main_startup
    by_cases h1 : env.databaseUrl.getD "" = ""
    · simp [h1]
    · by_cases h2 : env.googleCredentialsJson.getD "" = ""
      · simp [h1, h2]
      · simp [h1, h2]
  · intro env h
    unfold main_startup
    rw [if_pos h]

/-- C9, witness: a run with no database URL fails fast. -/
theorem C9_witness :
    main_startup
      { databaseUrl := none, store1Domain := some "s1.example", store1Token := some "tok",
        store2Domain := none, store2Token := none, googleCredentialsJson := some "svc" }
      = Except.error "Saknas DATABASE_URL" :=
  C9_startup_check_amended.2
    { databaseUrl := none, store1Domain := some "s1.example", store1Token := some "tok",
      store2Domain := none, store2Token := none, googleCredentialsJson := some "svc" } rfl

/-- C10.  Cache-miss fallback and output shape: on a cache miss both
store paths substitute the product's own live tag list for the cached
list — so with a positive quantity the store-1 target set is exactly the
normalised live tag set, and the store-2 target set is exactly the
normalised union of the store-1 and store-2 live tag lists (no tag
outside the live lists is ever added); and every tag list either path
writes is sorted, duplicate-free and fully lower-cased. -/
theorem C10_cache_miss_fallback :
    (∀ (db : List (String × List String)) (p : Product) (qty : ℕ),
        db.lookup p.id = none → qty ≠ 0 →
        (mkPlan1 db p qty).tagWrite.toFinset
          = ((splitTags p.tags).map normalizeTag).toFinset) ∧
    (∀ (db : List (String × List String)) (p1 s2 : Product) (qty : ℕ),
        db.lookup p1.id = none → qty ≠ 0 →
        (mkPlan2 db p1 s2 qty).tagWrite.toFinset
          = ((splitTags p1.tags ++ splitTags s2.tags).map normalizeTag).toFinset) ∧
    (∀ (db : List (String × List String)) (p : Product) (qty : ℕ),
        List.Sorted strLe (mkPlan1 db p qty).tagWrite ∧
        (mkPlan1 db p qty).tagWrite.Nodup ∧
        ∀ u ∈ (mkPlan1 db p qty).tagWrite, pyLower u = u) ∧
    (∀ (db : List (String × List String)) (p1 s2 : Product) (qty : ℕ),
        List.Sorted strLe (mkPlan2 db p1 s2 qty).tagWrite ∧
        (mkPlan2 db p1 s2 qty).tagWrite.Nodup ∧
        ∀ u ∈ (mkPlan2 db p1 s2 qty).tagWrite, pyLower u = u) := by
  refine ⟨?_, ?_, ?_, ?_⟩
  · intro db p qty hmiss hq
    rw [mkPlan1_tagWrite, hmiss, Option.getD_none, newTags_toFinset, if_neg hq,
      combinedTagSet, List.map_append, List.toFinset_append, Finset.union_self]
  · intro db p1 s2 qty hmiss hq
    rw [mkPlan2_tagWrite, hmiss, Option.getD_none, newTags_toFinset, if_neg hq]
    rfl
  · intro db p qty
    rw [mkPlan1_tagWrite]
    refine ⟨newTags_sorted _ _ _, newTags_nodup _ _ _, fun u hu => ?_⟩
    obtain ⟨t, _, hteq⟩ := by
      have hc := mem_newTags_mem_combined hu
      rw [combinedTagSet, List.mem_toFinset, List.mem_map] at hc
      exact hc
    rw [← hteq]
    exact pyLower_normalizeTag t
  · intro db p1 s2 qty
    rw [mkPlan2_tagWrite]
    refine ⟨newTags_sorted _ _ _, newTags_nodup _ _ _, fun u hu => ?_⟩
    obtain ⟨t, _, hteq⟩ := by
      have hc := mem_newTags_mem_combined hu
      rw [combinedTagSet, List.mem_toFinset, List.mem_map] at hc
      exact hc
    rw [← hteq]
    exact pyLower_normalizeTag t

/-- C10, witness at concrete cache-miss products. -/
theorem C10_witness :
    (mkPlan1 [] { id := "1", title := "parfym 5", tags := "Summer, male", variants := [] } 2).tagWrite.toFinset
      = ((splitTags "Summer, male").map normalizeTag).toFinset ∧
    (mkPlan2 [] { id := "1", title := "parfym 5", tags := "male", variants := [] }
        { id := "9", title := "parfym 5", tags := "Summer", variants := [] } 2).tagWrite.toFinset
      = ((splitTags "male" ++ splitTags "Summer").map normalizeTag).toFinset :=
  ⟨(C10_cache_miss_fallback.1 []
      { id := "1", title := "parfym 5", tags := "Summer, male", variants := [] } 2
      rfl (by decide)),
   (C10_cache_miss_fallback.2.1 []
      { id := "1", title := "parfym 5", tags := "male", variants := [] }
      { id := "9", title := "parfym 5", tags := "Summer", variants := [] } 2
      rfl (by decide))⟩

end UpdateShopify
